import Mathlib

/-!
Verification of the jira-forecasting repository.

This file gives a shallow embedding of the core algorithms of the repository
(sources: forecasting.py, jira_data.py, jira_statistics.py, main.py) and proves
or refutes the frozen claims about them.

Modelling conventions:
- UTC instants and durations in the cycle-time reconstruction are integers
  (seconds); `timedelta.total_seconds()` is then the identity embedding into ℚ.
- Story points, daily completion counts and all statistics are rationals.
- Python dicts are association lists (`List (key × value)`) preserving
  insertion order, with the upsert/overwrite/delete operations written out.
- numpy's pseudo-random `np.random.choice(a, size=(trials, days))` is modelled
  by an arbitrary sampling function `sample : Nat → Nat → Nat` giving, for
  trial `i` and day `j`, the index drawn from the historical series; every
  theorem quantifies over `sample`, so it holds for every possible draw.
- Fallible numpy/python operations are modelled with `Except PyError`;
  `PyError` distinguishes the runtime errors the interpreter would raise.
-/

/-! ## Generic list utilities shared by the embedded modules -/

/-- Running cumulative sum with accumulator `acc` (helper for `cumsum`). -/
def cumsumFrom (acc : ℚ) : List ℚ → List ℚ
  | [] => []
  | x :: xs => (acc + x) :: cumsumFrom (acc + x) xs

/-- `np.cumsum` along one row: partial sums of the list. -/
def cumsum (l : List ℚ) : List ℚ := cumsumFrom 0 l

/-- `np.mean` of a list (only ever used on nonempty lists; on `[]` the real
code produces `nan`, which every call site guards against or turns into a
runtime error that the embedding models separately). -/
def mean (l : List ℚ) : ℚ := l.sum / l.length

/-- Insert an element into a list that is sorted by `key`, after any elements
with an equal key (this is what makes the overall sort stable, matching
Python's `list.sort` and numpy's default). -/
def insertByKey {α β : Type} [LinearOrder β] (key : α → β) (a : α) : List α → List α
  | [] => [a]
  | b :: l => if key a < key b then a :: b :: l else b :: insertByKey key a l

/-- Stable sort by a rational key (insertion sort, folding left so that
elements with equal keys keep their original relative order). -/
def sortByKey {α β : Type} [LinearOrder β] (key : α → β) (l : List α) : List α :=
  l.foldl (fun acc a => insertByKey key a acc) []

/-- Sort a list of rationals ascending. -/
def sortQ (l : List ℚ) : List ℚ := sortByKey id l

/-- Index of the first element that is `≥ t`, if any.  `np.argmax(row >= t)`
is this index when it exists and `0` otherwise. -/
def firstGeIdx (t : ℚ) : List ℚ → Option Nat
  | [] => none
  | x :: xs => if t ≤ x then some 0 else (firstGeIdx t xs).map (· + 1)

/-- `np.quantile(data, q)` with the default "linear" interpolation method:
with sorted data `s` of length `n` and position `pos = q*(n-1)`, the result is
`s[k] + (pos-k)*(s[k+1]-s[k])` for `k = ⌊pos⌋`. -/
def quantileLinear (q : ℚ) (data : List ℚ) : ℚ :=
  let s := sortQ data
  let n := data.length
  let pos := q * ((n : ℚ) - 1)
  let k := (⌊pos⌋).toNat
  let f := pos - (k : ℚ)
  if k + 1 < n then s.getD k 0 + f * (s.getD (k + 1) 0 - s.getD k 0) else s.getD k 0

/-- `np.quantile(data, q, method="lower")`: the sorted value at index
`⌊q*(n-1)⌋`. -/
def quantileLower (q : ℚ) (data : List ℚ) : ℚ :=
  (sortQ data).getD ((⌊q * ((data.length : ℚ) - 1)⌋).toNat) 0

/-- `np.percentile(data, p)` (default linear method): `p` ranges over 0..100. -/
def pyPercentile (p : ℚ) (data : List ℚ) : ℚ := quantileLinear (p / 100) data

/-- Python's `int()` applied to a float: truncation toward zero. -/
def pyInt (q : ℚ) : ℤ := if 0 ≤ q then ⌊q⌋ else ⌈q⌉

/-! ## forecasting.py — MonteCarloForecaster -/

/-- Runtime errors that `MonteCarloForecaster.run_simulation` can raise. -/
inductive PyError where
  /-- `ValueError` (explicit raise, `np.random.choice` on an empty array or a
  negative dimension, `np.argmax` over an empty axis, `int(nan)`). -/
  | valueError
  /-- `OverflowError` from `int(inf)` when the historical mean is zero. -/
  | overflowError
  /-- `IndexError` from the `[:, -1]` selection on a zero-width matrix. -/
  | indexError
  /-- `np.quantile` over an empty trials axis (zero simulations): recent
  numpy returns an array of `nan` — which no rational can represent — and
  older numpy raises `IndexError`; either way it is never a numeric
  forecast, so the embedding folds it into this error. -/
  | nanQuantile
deriving DecidableEq

/-- One simulated trial row before the cumulative sum:
`np.random.choice(completed_per_day, size=(num_simulations, num_days))`, row
`i`, where `sample i j` is the raw draw and the modulus keeps it a valid index
into the historical series. -/
def sampleRow (series : List ℚ) (sample : Nat → Nat → Nat) (i nd : Nat) : List ℚ :=
  (List.range nd).map (fun j => series.getD (sample i j % series.length) 0)

/-- Per-trial days-to-target, computed from the trial's *cumulative* row:
`np.argmax(simulations >= target_count, axis=1)` is the first index at which
the cumulative sum reaches the target, and 0 when the row is all-False. -/
def daysToTargetRow (target : ℚ) (cumRow : List ℚ) : Nat :=
  (firstGeIdx target cumRow).getD 0

/-- `MonteCarloForecaster.run_simulation(df, num_days, target_count)`
(forecasting.py lines 11-33).  `numSim` is `self.num_simulations`
(default 10000).  The historical series is `df["Completed"].values`.
Control flow follows the source line by line:
- raise `ValueError` when both `num_days` and `target_count` are `None`;
- when `num_days is None`, derive it as `int(2*target/np.mean(series))`
  (on an empty series `np.mean` is `nan` and `int(nan)` raises `ValueError`;
  on a zero mean with a nonzero target the division gives `inf` and
  `int(inf)` raises `OverflowError`, while a zero target gives `0.0/0.0 =
  nan` and `int(nan)` raises `ValueError`);
- `np.random.choice` raises `ValueError` on an empty series or a negative
  `num_days`; otherwise it fills a `numSim × num_days` matrix of draws;
- `np.cumsum(_, axis=1)` turns each row into its running sum;
- with a target: `np.argmax(rows >= target, axis=1)` (`ValueError` on a
  zero-width axis), then the 0.5/0.75/0.85/0.95 quantiles of that
  distribution with the default linear method;
- without a target: the 0.5/0.25/0.15/0.05 quantiles (method "lower") of
  each column, of which `[:, -1]` keeps the final-day column (`IndexError`
  when there is no column);
- in either mode, a quantile over an empty trials axis (`numSim = 0`) is
  `nan`/`IndexError`, never a numeric forecast: `PyError.nanQuantile`. -/
def runSimulation (numSim : Nat) (series : List ℚ) (numDaysArg : Option ℤ)
    (targetArg : Option ℚ) (sample : Nat → Nat → Nat) : Except PyError (List ℚ) :=
  if numDaysArg = none ∧ targetArg = none then .error .valueError else
  let ndE : Except PyError ℤ :=
    match numDaysArg, targetArg with
    | some d, _ => .ok d
    | none, some t =>
      if series = [] then .error .valueError
      else if mean series = 0 then
        if t = 0 then .error .valueError else .error .overflowError
      else .ok (pyInt (2 * t / mean series))
    | none, none => .error .valueError
  match ndE with
  | .error e => .error e
  | .ok numDays =>
    if series = [] then .error .valueError
    else if numDays < 0 then .error .valueError
    else
      let nd := numDays.toNat
      let cumRows := (List.range numSim).map (fun i => cumsum (sampleRow series sample i nd))
      match targetArg with
      | some t =>
        if nd = 0 then .error .valueError
        else if numSim = 0 then .error .nanQuantile
        else
          let days := cumRows.map (fun row => (daysToTargetRow t row : ℚ))
          .ok ([(0.5 : ℚ), 0.75, 0.85, 0.95].map (fun q => quantileLinear q days))
      | none =>
        if nd = 0 then .error .indexError
        else if numSim = 0 then .error .nanQuantile
        else
          let lastCol := cumRows.map (fun row => row.getLastD 0)
          .ok ([(0.5 : ℚ), 0.25, 0.15, 0.05].map (fun q => quantileLower q lastCol))

/-! ## jira_data.py — cycle-time reconstruction, backfilling, daily series -/

/-- One status-change entry of a changelog, as extracted by
`calculate_cycle_times` (jira_data.py lines 114-120): a UTC timestamp (in
seconds) and the from/to status strings. -/
structure StatusChangeEvent where
  ts : ℤ
  from_status : String
  to_status : String
deriving DecidableEq

/-- Dict update `d[k] = d.get(k, 0) + v`: add to the existing entry or create
it at the end (Python dicts preserve insertion order). -/
def upsertAdd : List (String × ℤ) → String → ℤ → List (String × ℤ)
  | [], k, v => [(k, v)]
  | (k₀, v₀) :: rest, k, v =>
    if k₀ = k then (k₀, v₀ + v) :: rest else (k₀, v₀) :: upsertAdd rest k v

/-- Dict assignment `d[k] = v`: overwrite in place or append. -/
def setKey : List (String × ℤ) → String → ℤ → List (String × ℤ)
  | [], k, v => [(k, v)]
  | (k₀, v₀) :: rest, k, v =>
    if k₀ = k then (k, v) :: rest else (k₀, v₀) :: setKey rest k v

/-- Dict deletion `del d[k]` (keys are unique, so removing the first
occurrence is exact). -/
def delKey : List (String × ℤ) → String → List (String × ℤ)
  | [], _ => []
  | (k₀, v₀) :: rest, k => if k₀ = k then rest else (k₀, v₀) :: delKey rest k

/-- The body of the event loop of `calculate_cycle_times` (jira_data.py lines
130-139).  State: (`cycle_times`, `status_start_times`).  If the event's
`from_status` has an open interval, credit the elapsed duration to it and
close the interval; then (re)open `to_status` at the event's timestamp. -/
def stepEvent (st : List (String × ℤ) × List (String × ℤ)) (e : StatusChangeEvent) :
    List (String × ℤ) × List (String × ℤ) :=
  let cycle := st.1
  let openInt := st.2
  match openInt.lookup e.from_status with
  | some t₀ =>
      (upsertAdd cycle e.from_status (e.ts - t₀),
       setKey (delKey openInt e.from_status) e.to_status e.ts)
  | none => (cycle, setKey openInt e.to_status e.ts)

/-- `JiraDataManager.calculate_cycle_times` (jira_data.py lines 109-150), from
the extracted status-change list onward (JSON parsing of the changelog is I/O
and out of scope; the Backlog→In Progress counter is incremented during that
same extraction loop, hence it counts raw, unsorted events).  The events are
sorted by timestamp (stably), folded through `stepEvent`, and every status
still open at the end is credited up to the evaluation instant `now`
(`pd.Timestamp.now()` in the source, passed explicitly here). -/
def calculate_cycle_times (events : List StatusChangeEvent) (now : ℤ) :
    List (String × ℤ) × Nat :=
  let count := events.countP
    (fun e => e.from_status == "Backlog" && e.to_status == "In Progress")
  let sortedEvents := sortByKey (fun e => e.ts) events
  let st := sortedEvents.foldl stepEvent ([], [])
  let cycle := st.2.foldl (fun c p => upsertAdd c p.1 (now - p.2)) st.1
  (cycle, count)

/-- One processed work item, the dict built by `process_issues` (jira_data.py
lines 94-105): nullable story points, nullable completion date (day number),
nullable assignee, the reconstructed cycle-time map (status → seconds) and the
transition counter.  `original_story_points` only exists after
`backfill_story_points` has run, hence the `Option Bool`. -/
structure WorkItem where
  key : String
  story_points : Option ℚ
  original_story_points : Option Bool
  created_date : ℤ
  completed_date : Option ℤ
  assignee : Option String
  description_length : Nat
  acceptance_criteria_length : Nat
  cycle_times : List (String × ℤ)
  backlog_to_progress : Nat
deriving DecidableEq

/-- The collection average used for backfilling: `np.mean` of the non-null
story points, or the constant 1 when there are none (jira_data.py lines
221-233). -/
def backfillAverage (tickets : List WorkItem) : ℚ :=
  let valid := tickets.filterMap (·.story_points)
  if valid = [] then 1 else mean valid

/-- `JiraDataManager.backfill_story_points` (jira_data.py lines 221-246):
tickets lacking a story-point value get the collection average and
`original_story_points = False`; the rest keep their value and get
`original_story_points = True`. -/
def backfill_story_points (tickets : List WorkItem) : List WorkItem :=
  let avg := backfillAverage tickets
  tickets.map (fun t =>
    match t.story_points with
    | none => { t with story_points := some avg, original_story_points := some false }
    | some _ => { t with original_story_points := some true })

/-- The closed tickets: those with a non-null `completed_date` (jira_data.py
line 251). -/
def closedTickets (tickets : List WorkItem) : List WorkItem :=
  tickets.filter (·.completed_date.isSome)

/-- The completion dates of the closed tickets. -/
def completionDates (tickets : List WorkItem) : List ℤ :=
  (closedTickets tickets).filterMap (·.completed_date)

/-- `min(...)` over a nonempty list of dates (0 is a dummy for `[]`, which
`prepare_data` never reaches). -/
def minDate : List ℤ → ℤ
  | [] => 0
  | d :: ds => ds.foldl min d

/-- `max(...)` over a nonempty list of dates. -/
def maxDate : List ℤ → ℤ
  | [] => 0
  | d :: ds => ds.foldl max d

/-- `df.at[closed_timestamp, "Completed"] += value` (jira_data.py lines
268-274): add `v` to the bucket of day `d` when `d` lies in the frame's date
range (the defensive `if closed_timestamp in df.index` check of the source),
and do nothing otherwise. -/
def bumpDay (earliest latest : ℤ) (counts : List ℚ) (d : ℤ) (v : ℚ) : List ℚ :=
  if earliest ≤ d ∧ d ≤ latest then
    let i := (d - earliest).toNat
    counts.set i (counts.getD i 0 + v)
  else counts

/-- The zero-initialized, date-indexed frame with its cumulative column, as
returned by `prepare_data`. -/
structure ThroughputFrame where
  dates : List ℤ
  completed : List ℚ
  cumulative : List ℚ
deriving DecidableEq

/-- `JiraDataManager.prepare_data` (jira_data.py lines 248-282): keep the
closed tickets (returning `None` when there are none), build a contiguous
zero-initialized daily index from the earliest to the latest completion date,
add each closed ticket's contribution (its story points, or 1) to its
completion-day bucket, and derive the cumulative column.  `prepare_data` is
called only after `backfill_story_points`, so in the story-points mode every
ticket has a non-null value (the `getD` default is never taken there). -/
def prepare_data (tickets : List WorkItem) (usePoints : Bool) : Option ThroughputFrame :=
  let closed := closedTickets tickets
  if completionDates tickets = [] then none
  else
    let earliest := minDate (completionDates tickets)
    let latest := maxDate (completionDates tickets)
    let n := (latest - earliest).toNat + 1
    let base := List.replicate n (0 : ℚ)
    let counts := closed.foldl (fun acc t =>
      match t.completed_date with
      | some cd => bumpDay earliest latest acc cd
          (if usePoints then t.story_points.getD 0 else 1)
      | none => acc) base
    some ⟨(List.range n).map (fun i => earliest + (i : ℤ)), counts, cumsum counts⟩

/-! ## jira_statistics.py and main.py -/

/-- Modelled from the spec: `calculate_combined_cycle_time` is invoked on the
`JiraDataManager` by `calculate_combined_cycle_time_stats`
(jira_statistics.py lines 44-48) and by `analyze_contributors`, but its
definition is absent from the provided sources.  Per spec §4.2
(CombinedIntervalCalculator): the sum of the map's durations over the
selected statuses, where a selected status absent from the map contributes
zero; no side effects.  The selected set is given as a duplicate-free list. -/
def calculate_combined_cycle_time (cycle_times : List (String × ℤ))
    (selected : List String) : ℤ :=
  (selected.map (fun s => (cycle_times.lookup s).getD 0)).sum

/-- The aggregate returned by `analyze_story_points`. -/
structure StoryPointStats where
  tickets_with_points : Nat
  backfilled_tickets : Nat
  average_points : Option ℚ
  total_original_points : ℚ
  total_backfilled_points : ℚ
  total_all_points : ℚ
  some_backfilled : Bool
deriving DecidableEq

/-- The tickets whose story points came from the source data
(`t.get("original_story_points") is True`). -/
def originalTickets (tickets : List WorkItem) : List WorkItem :=
  tickets.filter (·.original_story_points == some true)

/-- The tickets whose story points were backfilled
(`t.get("original_story_points") is False`). -/
def backfilledTickets (tickets : List WorkItem) : List WorkItem :=
  tickets.filter (·.original_story_points == some false)

/-- `JiraStatistics.analyze_story_points` (jira_statistics.py lines 190-231):
split by provenance, total each side, and average *only* the originally
sourced points — `None` (not zero) when there are no original tickets.
It runs after backfilling, so story points are non-null (`getD` unreached). -/
def analyze_story_points (tickets : List WorkItem) : StoryPointStats :=
  let originals := originalTickets tickets
  let backfilled := backfilledTickets tickets
  let total_original := (originals.map (fun t => t.story_points.getD 0)).sum
  let total_backfilled := (backfilled.map (fun t => t.story_points.getD 0)).sum
  { tickets_with_points := originals.length
    backfilled_tickets := backfilled.length
    average_points :=
      if originals = [] then none
      else some (mean (originals.map (fun t => t.story_points.getD 0)))
    total_original_points := total_original
    total_backfilled_points := total_backfilled
    total_all_points := total_original + total_backfilled
    some_backfilled := decide (0 < backfilled.length) }

/-- The per-status duration samples (in seconds) collected across the whole
collection by `remove_outliers` (main.py lines 97-102): each ticket that has
the status recorded contributes its duration once, in ticket order. -/
def statusDurations (tickets : List WorkItem) (status : String) : List ℚ :=
  tickets.filterMap (fun t => (t.cycle_times.lookup status).map (fun d => (d : ℚ)))

/-- The IQR fence of `calculate_iqr_bounds` (main.py lines 89-94):
`q3 + multiplier*(q3 - q1)` with `q1, q3 = np.percentile(data, [25, 75])`.
(The symmetric lower bound is also computed by the source but never used to
filter.) -/
def upperBound (mult : ℚ) (tickets : List WorkItem) (status : String) : ℚ :=
  let data := statusDurations tickets status
  let q1 := pyPercentile 25 data
  let q3 := pyPercentile 75 data
  q3 + mult * (q3 - q1)

/-- The outlier test of main.py lines 111-117: a ticket is an outlier iff any
of its recorded status durations strictly exceeds that status's upper bound. -/
def isOutlier (mult : ℚ) (tickets : List WorkItem) (t : WorkItem) : Bool :=
  t.cycle_times.any (fun p => decide (upperBound mult tickets p.1 < (p.2 : ℚ)))

/-- `remove_outliers` (main.py lines 86-128): one pass over the tickets,
appending each to the retained or to the removed list according to the
outlier test; returns `(filtered_tickets, removed_outliers)`. -/
def remove_outliers (tickets : List WorkItem) (mult : ℚ) :
    List WorkItem × List WorkItem :=
  (tickets.filter (fun t => ! isOutlier mult tickets t),
   tickets.filter (fun t => isOutlier mult tickets t))

/-- A work item with every field defaulted; the concrete examples in the
witnesses below override just the fields they exercise. -/
def baseItem : WorkItem :=
  { key := "T", story_points := none, original_story_points := none,
    created_date := 0, completed_date := none, assignee := none,
    description_length := 0, acceptance_criteria_length := 0,
    cycle_times := [], backlog_to_progress := 0 }

/-! ## Helper lemmas: the stable sort -/

theorem insertByKey_perm {α β : Type} [LinearOrder β] (key : α → β) (a : α) :
    ∀ l : List α, (insertByKey key a l).Perm (a :: l)
  | [] => List.Perm.refl _
  | b :: l => by
    unfold insertByKey
    by_cases h : key a < key b
    · rw [if_pos h]
    · rw [if_neg h]
      exact ((insertByKey_perm key a l).cons b).trans (List.Perm.swap a b l)

theorem sortByKeyAux_perm {α β : Type} [LinearOrder β] (key : α → β) :
    ∀ (l acc : List α), (l.foldl (fun acc a => insertByKey key a acc) acc).Perm (acc ++ l)
  | [], acc => by simp
  | a :: l, acc => by
    rw [List.foldl_cons]
    refine (sortByKeyAux_perm key l (insertByKey key a acc)).trans ?_
    refine (((insertByKey_perm key a acc).append_right l).trans ?_)
    exact (List.perm_middle).symm

theorem sortByKey_perm {α β : Type} [LinearOrder β] (key : α → β) (l : List α) :
    (sortByKey key l).Perm l := by
  simpa using sortByKeyAux_perm key l []

theorem insertByKey_pairwise {α β : Type} [LinearOrder β] (key : α → β) (a : α) :
    ∀ l : List α, l.Pairwise (fun x y => key x ≤ key y) →
      (insertByKey key a l).Pairwise (fun x y => key x ≤ key y)
  | [], _ => by simp [insertByKey]
  | b :: l, h => by
    rw [List.pairwise_cons] at h
    unfold insertByKey
    by_cases hab : key a < key b
    · rw [if_pos hab, List.pairwise_cons]
      refine ⟨?_, List.pairwise_cons.mpr h⟩
      intro c hc
      rcases List.mem_cons.mp hc with hc | hc
      · exact hc ▸ le_of_lt hab
      · exact le_trans (le_of_lt hab) (h.1 c hc)
    · rw [if_neg hab, List.pairwise_cons]
      constructor
      · intro c hc
        have := (insertByKey_perm key a l).mem_iff.mp hc
        rcases List.mem_cons.mp this with hc | hc
        · exact hc ▸ le_of_not_lt hab
        · exact h.1 c hc
      · exact insertByKey_pairwise key a l h.2

theorem sortByKeyAux_pairwise {α β : Type} [LinearOrder β] (key : α → β) :
    ∀ (l acc : List α), acc.Pairwise (fun x y => key x ≤ key y) →
      (l.foldl (fun acc a => insertByKey key a acc) acc).Pairwise
        (fun x y => key x ≤ key y)
  | [], _, h => h
  | a :: l, acc, h => by
    rw [List.foldl_cons]
    exact sortByKeyAux_pairwise key l _ (insertByKey_pairwise key a acc h)

theorem sortByKey_pairwise {α β : Type} [LinearOrder β] (key : α → β) (l : List α) :
    (sortByKey key l).Pairwise (fun x y => key x ≤ key y) :=
  sortByKeyAux_pairwise key l [] (List.Pairwise.nil)

/-- Two sorted lists that are permutations of each other and have pairwise
distinct keys are equal. -/
theorem eq_of_perm_of_pairwise_of_nodup_keys {α β : Type} [LinearOrder β] (key : α → β) :
    ∀ l₁ l₂ : List α, l₁.Perm l₂ →
      l₁.Pairwise (fun x y => key x ≤ key y) →
      l₂.Pairwise (fun x y => key x ≤ key y) →
      (l₁.map key).Nodup → l₁ = l₂
  | [], l₂, hp, _, _, _ => (hp.nil_eq).symm ▸ rfl
  | a :: l₁, [], hp, _, _, _ => absurd hp.eq_nil (by simp)
  | a :: l₁, b :: l₂, hp, h₁, h₂, hnd => by
    rw [List.pairwise_cons] at h₁ h₂
    have hab : a = b := by
      by_contra hne
      have hbmem : b ∈ a :: l₁ := hp.symm.subset (List.mem_cons_self b l₂)
      have hamem : a ∈ b :: l₂ := hp.subset (List.mem_cons_self a l₁)
      have hb₁ : b ∈ l₁ := by
        rcases List.mem_cons.mp hbmem with h | h
        · exact absurd h.symm hne
        · exact h
      have hkab : key a ≤ key b := h₁.1 b hb₁
      have hkba : key b ≤ key a := by
        rcases List.mem_cons.mp hamem with h | h
        · exact absurd h (fun hh => hne hh)
        · exact h₂.1 a h
      have hkeq : key b = key a := le_antisymm hkba hkab
      rw [List.map_cons, List.nodup_cons] at hnd
      exact hnd.1 (hkeq ▸ List.mem_map_of_mem key hb₁)
    subst hab
    have hp₁ : l₁.Perm l₂ := hp.cons_inv
    have hnd₁ : (l₁.map key).Nodup := by
      rw [List.map_cons, List.nodup_cons] at hnd
      exact hnd.2
    rw [eq_of_perm_of_pairwise_of_nodup_keys key l₁ l₂ hp₁ h₁.2 h₂.2 hnd₁]

/-- Sorting is permutation-invariant when all keys are distinct. -/
theorem sortByKey_eq_of_perm {α β : Type} [LinearOrder β] (key : α → β) (l₁ l₂ : List α)
    (hp : l₁.Perm l₂) (hnd : (l₁.map key).Nodup) :
    sortByKey key l₁ = sortByKey key l₂ := by
  refine eq_of_perm_of_pairwise_of_nodup_keys key _ _ ?_ ?_ ?_ ?_
  · exact (sortByKey_perm key l₁).trans (hp.trans (sortByKey_perm key l₂).symm)
  · exact sortByKey_pairwise key l₁
  · exact sortByKey_pairwise key l₂
  · exact ((sortByKey_perm key l₁).map key).nodup_iff.mpr hnd

/-! ## Helper lemmas: sorted access and quantiles -/

theorem sortQ_length (l : List ℚ) : (sortQ l).length = l.length :=
  (sortByKey_perm id l).length_eq

theorem pairwise_le_getD_mono (l : List ℚ)
    (h : l.Pairwise (fun x y : ℚ => x ≤ y)) (i j : Nat) (hij : i ≤ j)
    (hj : j < l.length) : l.getD i 0 ≤ l.getD j 0 := by
  rcases Nat.lt_or_ge i j with hlt | hge
  · rw [List.getD_eq_getElem l 0 (lt_trans hlt hj), List.getD_eq_getElem l 0 hj]
    exact List.pairwise_iff_get.mp h ⟨i, lt_trans hlt hj⟩ ⟨j, hj⟩ hlt
  · have : i = j := le_antisymm hij hge
    rw [this]

theorem insertByKey_id_replicate (c : ℚ) :
    ∀ k : Nat, insertByKey id c (List.replicate k c) = List.replicate (k + 1) c
  | 0 => by simp [insertByKey]
  | k + 1 => by
    rw [List.replicate_succ, insertByKey]
    rw [if_neg (lt_irrefl (id c)), insertByKey_id_replicate c k]
    rfl

theorem sortQ_replicate_aux (c : ℚ) :
    ∀ (n k : Nat), (List.replicate n c).foldl
        (fun acc a => insertByKey id a acc) (List.replicate k c) =
      List.replicate (k + n) c
  | 0, k => by simp
  | n + 1, k => by
    rw [List.replicate_succ, List.foldl_cons, insertByKey_id_replicate c k,
      sortQ_replicate_aux c n (k + 1)]
    congr 1
    omega

theorem sortQ_replicate (n : Nat) (c : ℚ) :
    sortQ (List.replicate n c) = List.replicate n c := by
  have := sortQ_replicate_aux c n 0
  simpa [sortQ, sortByKey] using this

theorem getD_replicate (n i : Nat) (c d : ℚ) :
    (List.replicate n c).getD i d = if i < n then c else d := by
  by_cases h : i < n
  · rw [if_pos h, List.getD_eq_getElem _ d (by simpa using h)]
    exact List.getElem_replicate c (by simpa using h)
  · rw [if_neg h, List.getD_eq_default]
    simpa using Nat.le_of_not_lt h

theorem quantilePos_floor_toNat_le (q : ℚ) (n : Nat) (h0 : 0 ≤ q) (h1 : q ≤ 1)
    (hn : 0 < n) : (⌊q * ((n : ℚ) - 1)⌋).toNat < n := by
  have hnn : (0 : ℚ) ≤ (n : ℚ) - 1 := by
    have : (1 : ℚ) ≤ (n : ℚ) := by exact_mod_cast hn
    linarith
  have hle : q * ((n : ℚ) - 1) ≤ (n : ℚ) - 1 := by nlinarith
  have hfl : ⌊q * ((n : ℚ) - 1)⌋ ≤ (n : ℤ) - 1 := by
    have h2 : q * ((n : ℚ) - 1) ≤ (((n : ℤ) - 1 : ℤ) : ℚ) := by push_cast; linarith
    have := Int.floor_mono h2
    rwa [Int.floor_intCast] at this
  omega

theorem quantileLinear_replicate (q : ℚ) (n : Nat) (c : ℚ) (hn : 0 < n)
    (h0 : 0 ≤ q) (h1 : q ≤ 1) : quantileLinear q (List.replicate n c) = c := by
  unfold quantileLinear
  rw [sortQ_replicate, List.length_replicate]
  have hk := quantilePos_floor_toNat_le q n h0 h1 hn
  by_cases hsucc : (⌊q * ((n : ℚ) - 1)⌋).toNat + 1 < n
  · rw [if_pos hsucc, getD_replicate, getD_replicate, if_pos hk, if_pos hsucc]
    ring
  · rw [if_neg hsucc, getD_replicate, if_pos hk]

theorem quantileLower_replicate (q : ℚ) (n : Nat) (c : ℚ) (hn : 0 < n)
    (h0 : 0 ≤ q) (h1 : q ≤ 1) : quantileLower q (List.replicate n c) = c := by
  unfold quantileLower
  rw [sortQ_replicate, List.length_replicate, getD_replicate,
    if_pos (quantilePos_floor_toNat_le q n h0 h1 hn)]

theorem quantileLower_mono (xs : List ℚ) (hxs : xs ≠ []) (q₁ q₂ : ℚ)
    (h0 : 0 ≤ q₁) (h12 : q₁ ≤ q₂) (h1 : q₂ ≤ 1) :
    quantileLower q₁ xs ≤ quantileLower q₂ xs := by
  unfold quantileLower
  have hn : 0 < xs.length := List.length_pos.mpr hxs
  have hnn : (0 : ℚ) ≤ (xs.length : ℚ) - 1 := by
    have : (1 : ℚ) ≤ (xs.length : ℚ) := by exact_mod_cast hn
    linarith
  have hmono : ⌊q₁ * ((xs.length : ℚ) - 1)⌋ ≤ ⌊q₂ * ((xs.length : ℚ) - 1)⌋ :=
    Int.floor_le_floor (by nlinarith)
  have hsorted : (sortQ xs).Pairwise (fun x y : ℚ => x ≤ y) := by
    have := sortByKey_pairwise id xs
    simpa [sortQ] using this
  refine pairwise_le_getD_mono (sortQ xs) hsorted _ _ (by omega) ?_
  rw [sortQ_length]
  exact quantilePos_floor_toNat_le q₂ xs.length (le_trans h0 h12) h1 hn

/-! ## Helper lemmas: first-crossing index, cumulative sums, mean -/

theorem firstGeIdx_none_iff (t : ℚ) :
    ∀ l : List ℚ, firstGeIdx t l = none ↔ ∀ x ∈ l, x < t
  | [] => by simp [firstGeIdx]
  | x :: xs => by
    unfold firstGeIdx
    by_cases h : t ≤ x
    · simp only [if_pos h]
      constructor
      · intro hc; exact absurd hc (by simp)
      · intro hall
        exact absurd (hall x (List.mem_cons_self x xs)) (not_lt.mpr h)
    · rw [if_neg h]
      constructor
      · intro hc
        have hxs : firstGeIdx t xs = none := by
          cases hfx : firstGeIdx t xs with
          | none => rfl
          | some j => rw [hfx] at hc; exact absurd hc (by simp)
        intro y hy
        rcases List.mem_cons.mp hy with hy | hy
        · exact hy ▸ lt_of_not_le h
        · exact (firstGeIdx_none_iff t xs).mp hxs y hy
      · intro hall
        have hxs : firstGeIdx t xs = none := (firstGeIdx_none_iff t xs).mpr
          (fun y hy => hall y (List.mem_cons_of_mem x hy))
        rw [hxs]
        rfl

theorem firstGeIdx_some_spec (t : ℚ) :
    ∀ (l : List ℚ) (i : Nat), firstGeIdx t l = some i →
      i < l.length ∧ t ≤ l.getD i 0 ∧ ∀ k, k < i → l.getD k 0 < t
  | [], i => by simp [firstGeIdx]
  | x :: xs, i => by
    unfold firstGeIdx
    by_cases h : t ≤ x
    · rw [if_pos h]
      intro hi
      cases hi
      exact ⟨by simp, by simpa using h, fun k hk => absurd hk (Nat.not_lt_zero k)⟩
    · rw [if_neg h]
      intro hi
      rcases Option.map_eq_some.mp hi with ⟨j, hj, hji⟩
      rcases firstGeIdx_some_spec t xs j hj with ⟨hlen, hge, hfirst⟩
      subst hji
      refine ⟨by simpa using hlen, by simpa using hge, ?_⟩
      intro k hk
      cases k with
      | zero => simpa using lt_of_not_le h
      | succ k =>
        have : k < j := Nat.lt_of_succ_lt_succ hk
        simpa using hfirst k this

theorem firstGeIdx_eq_some_intro (t : ℚ) :
    ∀ (l : List ℚ) (i : Nat), i < l.length → t ≤ l.getD i 0 →
      (∀ k, k < i → l.getD k 0 < t) → firstGeIdx t l = some i
  | [], i => by simp
  | x :: xs, 0 => by
    intro _ hge _
    unfold firstGeIdx
    rw [if_pos (by simpa using hge)]
  | x :: xs, i + 1 => by
    intro hlen hge hfirst
    unfold firstGeIdx
    have hx : ¬ t ≤ x := by
      have := hfirst 0 (Nat.succ_pos i)
      simpa using not_le.mpr this
    rw [if_neg hx, firstGeIdx_eq_some_intro t xs i (by simpa using hlen)
      (by simpa using hge) (fun k hk => by simpa using hfirst (k + 1) (by omega))]
    rfl

theorem cumsumFrom_replicate (v : ℚ) :
    ∀ (n : Nat) (a : ℚ), cumsumFrom a (List.replicate n v) =
      (List.range n).map (fun (j : Nat) => a + ((j : ℚ) + 1) * v)
  | 0, a => by simp [cumsumFrom]
  | n + 1, a => by
    rw [List.replicate_succ, cumsumFrom, cumsumFrom_replicate v n (a + v),
      List.range_succ_eq_map, List.map_cons, List.map_map]
    congr 1
    · norm_num
    · congr 1
      funext j
      simp only [Function.comp_apply, Nat.succ_eq_add_one]
      push_cast
      ring

theorem cumsum_replicate (n : Nat) (v : ℚ) :
    cumsum (List.replicate n v) = (List.range n).map (fun (j : Nat) => ((j : ℚ) + 1) * v) := by
  rw [cumsum, cumsumFrom_replicate]
  simp

theorem cumsum_replicate_zero (n : Nat) :
    cumsum (List.replicate n (0 : ℚ)) = List.replicate n 0 := by
  rw [cumsum_replicate]
  simp

theorem getLastD_replicate (n : Nat) (c d : ℚ) (hn : 0 < n) :
    (List.replicate n c).getLastD d = c := by
  induction n generalizing d with
  | zero => omega
  | succ n ih =>
    rw [List.replicate_succ, List.getLastD_cons]
    cases n with
    | zero => rfl
    | succ m => exact ih d (Nat.succ_pos m)

theorem mean_replicate (n : Nat) (v : ℚ) (hn : 0 < n) :
    mean (List.replicate n v) = v := by
  unfold mean
  rw [List.sum_replicate, List.length_replicate, nsmul_eq_mul]
  have : (n : ℚ) ≠ 0 := by exact_mod_cast Nat.pos_iff_ne_zero.mp hn
  field_simp

/-! ## Helper lemmas: unfolding run_simulation on its two live branches -/

theorem runSimulation_horizon_eq (numSim : Nat) (series : List ℚ) (nd : ℤ)
    (sample : Nat → Nat → Nat) (hsim : 0 < numSim) (hs : series ≠ [])
    (hnd : 0 < nd) :
    runSimulation numSim series (some nd) none sample =
      Except.ok ([(0.5 : ℚ), 0.25, 0.15, 0.05].map (fun q => quantileLower q
        (((List.range numSim).map
            (fun i => cumsum (sampleRow series sample i nd.toNat))).map
          (fun row => row.getLastD 0)))) := by
  unfold runSimulation
  rw [if_neg (by simp)]
  dsimp only
  rw [if_neg hs, if_neg (not_lt.mpr (le_of_lt hnd)),
    if_neg (by omega : ¬ nd.toNat = 0), if_neg (by omega : ¬ numSim = 0)]

theorem runSimulation_target_eq (numSim : Nat) (series : List ℚ) (t : ℚ)
    (sample : Nat → Nat → Nat) (hsim : 0 < numSim) (hs : series ≠ [])
    (hm : mean series ≠ 0) (hnd : 0 < pyInt (2 * t / mean series)) :
    runSimulation numSim series none (some t) sample =
      Except.ok ([(0.5 : ℚ), 0.75, 0.85, 0.95].map (fun q => quantileLinear q
        (((List.range numSim).map (fun i =>
            cumsum (sampleRow series sample i (pyInt (2 * t / mean series)).toNat))).map
          (fun row => (daysToTargetRow t row : ℚ))))) := by
  unfold runSimulation
  rw [if_neg (by simp)]
  dsimp only
  rw [if_neg hs, if_neg hm]
  dsimp only
  rw [if_neg hs, if_neg (not_lt.mpr (le_of_lt hnd)),
    if_neg (by omega : ¬ (pyInt (2 * t / mean series)).toNat = 0),
    if_neg (by omega : ¬ numSim = 0)]

/-! ## Helper lemmas: all-zero and constant series -/

theorem sampleRow_replicate (m : Nat) (c : ℚ) (sample : Nat → Nat → Nat)
    (i k : Nat) (hm : 0 < m) :
    sampleRow (List.replicate m c) sample i k = List.replicate k c := by
  unfold sampleRow
  rw [List.length_replicate]
  have hgd : ∀ j : Nat, (List.replicate m c).getD (sample i j % m) 0 = c := by
    intro j
    rw [getD_replicate, if_pos (Nat.mod_lt _ hm)]
  rw [List.map_congr_left (fun j _ => hgd j)]
  rw [show (fun (j : Nat) => c) = Function.const Nat c from rfl, List.map_const,
    List.length_range]

theorem quantileLower_replicate_zero (q : ℚ) (n : Nat) :
    quantileLower q (List.replicate n (0 : ℚ)) = 0 := by
  unfold quantileLower
  rw [sortQ_replicate, getD_replicate]
  exact ite_self 0

/-- On an all-zero historical series with a positive explicit horizon,
`run_simulation` returns the zero forecast `[0, 0, 0, 0]` — it does not fail. -/
theorem runSimulation_allzero_horizon (numSim m : Nat) (nd : ℤ)
    (sample : Nat → Nat → Nat) (hsim : 0 < numSim) (hm : 0 < m) (hnd : 0 < nd) :
    runSimulation numSim (List.replicate m 0) (some nd) none sample =
      Except.ok [0, 0, 0, 0] := by
  have hs : List.replicate m (0 : ℚ) ≠ [] :=
    List.length_pos.mp (by simpa using hm)
  rw [runSimulation_horizon_eq numSim _ nd sample hsim hs hnd]
  have hrow : ∀ i : Nat,
      cumsum (sampleRow (List.replicate m (0 : ℚ)) sample i nd.toNat) =
        List.replicate nd.toNat 0 := by
    intro i
    rw [sampleRow_replicate m 0 sample i nd.toNat hm, cumsum_replicate_zero]
  have hrow2 : ∀ i ∈ List.range numSim,
      cumsum (sampleRow (List.replicate m (0 : ℚ)) sample i nd.toNat) =
        List.replicate nd.toNat (0 : ℚ) := fun i _ => hrow i
  rw [List.map_congr_left hrow2,
    show (fun (_ : Nat) => List.replicate nd.toNat (0 : ℚ)) =
      Function.const Nat (List.replicate nd.toNat (0 : ℚ)) from rfl,
    List.map_const, List.length_range, List.map_replicate,
    getLastD_replicate nd.toNat 0 0 (by omega)]
  simp [quantileLower_replicate_zero]

/-! ## C3 -/

/-- C3 counterexample: on the all-zero series `[0, 0, 0]` with horizon 2,
`run_simulation` returns the zero forecast `[0, 0, 0, 0]` instead of failing
with any InsufficientData condition, refuting the claim at this input. -/
theorem all_zero_series_zero_forecast_counterexample :
    runSimulation 3 [0, 0, 0] (some 2) none (fun _ _ => 0) =
      Except.ok [0, 0, 0, 0] := by
  have := runSimulation_allzero_horizon 3 3 2 (fun _ _ => 0) (by norm_num)
    (by norm_num) (by norm_num)
  simpa using this

/-- C3 (corrected): `run_simulation` performs no input validation beyond
raising `ValueError` when both `num_days` and `target_count` are unspecified.
In particular: (1) that is the only pre-computation check; (2) an all-zero
series with a positive horizon and a positive number of trials yields the
zero forecast `[0,0,0,0]`, not a failure; (3) an empty series fails only when
`np.random.choice` is reached, with a generic `ValueError`; (4) an all-zero
series in target mode fails from the horizon heuristic's division by a zero
mean — `OverflowError` (`int(inf)`) for a nonzero target, (5) `ValueError`
(`int(0.0/0.0) = int(nan)`) for a zero target; (6) a zero horizon fails with
`IndexError` after the simulation, and (7) a negative horizon with a generic
`ValueError` — none of these are rejected before computation begins. -/
theorem runSimulation_no_input_validation :
    (∀ (numSim : Nat) (series : List ℚ) (sample : Nat → Nat → Nat),
      runSimulation numSim series none none sample = Except.error .valueError) ∧
    (∀ (numSim m : Nat) (nd : ℤ) (sample : Nat → Nat → Nat),
      0 < numSim → 0 < m → 0 < nd →
      runSimulation numSim (List.replicate m 0) (some nd) none sample =
        Except.ok [0, 0, 0, 0]) ∧
    (∀ (numSim : Nat) (nd : ℤ) (sample : Nat → Nat → Nat),
      runSimulation numSim [] (some nd) none sample = Except.error .valueError) ∧
    (∀ (numSim m : Nat) (t : ℚ) (sample : Nat → Nat → Nat), 0 < m → t ≠ 0 →
      runSimulation numSim (List.replicate m 0) none (some t) sample =
        Except.error .overflowError) ∧
    (∀ (numSim m : Nat) (sample : Nat → Nat → Nat), 0 < m →
      runSimulation numSim (List.replicate m 0) none (some 0) sample =
        Except.error .valueError) ∧
    (∀ (numSim : Nat) (series : List ℚ) (sample : Nat → Nat → Nat),
      series ≠ [] →
      runSimulation numSim series (some 0) none sample = Except.error .indexError) ∧
    (∀ (numSim : Nat) (series : List ℚ) (nd : ℤ) (sample : Nat → Nat → Nat),
      nd < 0 →
      runSimulation numSim series (some nd) none sample = Except.error .valueError) := by
  refine ⟨?_, ?_, ?_, ?_, ?_, ?_, ?_⟩
  · intro numSim series sample
    unfold runSimulation
    rw [if_pos ⟨rfl, rfl⟩]
  · intro numSim m nd sample hsim hm hnd
    exact runSimulation_allzero_horizon numSim m nd sample hsim hm hnd
  · intro numSim nd sample
    unfold runSimulation
    rw [if_neg (by simp)]
    dsimp only
    rw [if_pos rfl]
  · intro numSim m t sample hm ht
    have hs : List.replicate m (0 : ℚ) ≠ [] :=
      List.length_pos.mp (by simpa using hm)
    unfold runSimulation
    rw [if_neg (by simp)]
    dsimp only
    rw [if_neg hs, if_pos (mean_replicate m 0 hm), if_neg ht]
  · intro numSim m sample hm
    have hs : List.replicate m (0 : ℚ) ≠ [] :=
      List.length_pos.mp (by simpa using hm)
    unfold runSimulation
    rw [if_neg (by simp)]
    dsimp only
    rw [if_neg hs, if_pos (mean_replicate m 0 hm), if_pos rfl]
  · intro numSim series sample hs
    unfold runSimulation
    rw [if_neg (by simp)]
    dsimp only
    rw [if_neg hs, if_neg (by norm_num : ¬ (0 : ℤ) < 0), if_pos (by decide : Int.toNat 0 = 0)]
  · intro numSim series nd sample hnd
    unfold runSimulation
    rw [if_neg (by simp)]
    dsimp only
    by_cases hs : series = []
    · rw [if_pos hs]
    · rw [if_neg hs, if_pos hnd]

/-- Concrete instances of the corrected C3 behaviour. -/
theorem runSimulation_no_input_validation_witness :
    runSimulation 1 [5] none none (fun _ _ => 0) = Except.error .valueError ∧
    runSimulation 1 [0] (some 1) none (fun _ _ => 0) = Except.ok [0, 0, 0, 0] ∧
    runSimulation 1 [0, 0] none (some 3) (fun _ _ => 0) =
      Except.error .overflowError ∧
    runSimulation 1 [0, 0] none (some 0) (fun _ _ => 0) =
      Except.error .valueError ∧
    runSimulation 1 [1, 2] (some 0) none (fun _ _ => 0) =
      Except.error .indexError ∧
    runSimulation 1 [1, 2] (some (-1)) none (fun _ _ => 0) =
      Except.error .valueError := by
  refine ⟨runSimulation_no_input_validation.1 1 [5] (fun _ _ => 0), ?_, ?_, ?_, ?_, ?_⟩
  · have := runSimulation_no_input_validation.2.1 1 1 1 (fun _ _ => 0)
      (by norm_num) (by norm_num) (by norm_num)
    simpa using this
  · have := runSimulation_no_input_validation.2.2.2.1 1 2 3 (fun _ _ => 0)
      (by norm_num) (by norm_num)
    simpa using this
  · have := runSimulation_no_input_validation.2.2.2.2.1 1 2 (fun _ _ => 0)
      (by norm_num)
    simpa using this
  · exact runSimulation_no_input_validation.2.2.2.2.2.1 1 [1, 2] (fun _ _ => 0)
      (by simp)
  · exact runSimulation_no_input_validation.2.2.2.2.2.2 1 [1, 2] (-1) (fun _ _ => 0)
      (by norm_num)

/-! ## C6 -/

/-- C6: for every nonempty historical series of non-negative values, every
positive horizon and every possible random draw, `run_simulation` in horizon
mode succeeds, returns exactly four percentile values in ascending-confidence
order 50/75/85/95 (quantile levels 0.5/0.25/0.15/0.05 of the final-day
cumulative values, method "lower"), and those values are monotonically
non-increasing as confidence increases.  (A historical series produced by
`prepare_data` is always nonempty; the theorem also holds for a positive
number of trials, the constructor default being 10000.) -/
theorem forecast_by_horizon_four_monotone_percentiles
    (numSim : Nat) (series : List ℚ) (nd : ℤ) (sample : Nat → Nat → Nat)
    (hsim : 0 < numSim) (hs : series ≠ []) (hnn : ∀ x ∈ series, 0 ≤ x)
    (hnd : 0 < nd) :
    ∃ r : List ℚ, runSimulation numSim series (some nd) none sample = Except.ok r ∧
      r.length = 4 ∧
      r.getD 1 0 ≤ r.getD 0 0 ∧ r.getD 2 0 ≤ r.getD 1 0 ∧ r.getD 3 0 ≤ r.getD 2 0 := by
  refine ⟨_, runSimulation_horizon_eq numSim series nd sample hsim hs hnd, ?_, ?_, ?_, ?_⟩
  · simp
  all_goals {
    simp only [List.map_cons, List.map_nil, List.getD_cons_zero, List.getD_cons_succ]
    refine quantileLower_mono _ ?_ _ _ (by norm_num) (by norm_num) (by norm_num)
    refine List.length_pos.mp ?_
    simp only [List.length_map, List.length_range]
    exact hsim }

/-- Concrete instance of C6. -/
theorem forecast_by_horizon_four_monotone_percentiles_witness :
    ((runSimulation 2 [1, 2] (some 3) none (fun _ _ => 0)).toOption.getD []).length
      = 4 := by
  obtain ⟨r, hr, hlen, _⟩ := forecast_by_horizon_four_monotone_percentiles
    2 [1, 2] 3 (fun _ _ => 0) (by norm_num) (by simp) (by norm_num) (by norm_num)
  rw [hr]
  simpa using hlen

/-! ## C1 -/

/-- C1 (corrected): the per-trial value reported by the target mode of
`run_simulation` (`np.argmax(cumulative_row >= target, axis=1)`, i.e.
`daysToTargetRow` applied to the trial's cumulative sum) is the first day
index at which the trial's cumulative sum reaches or exceeds the target; but
for a trial whose cumulative sum never reaches the target within the horizon,
the reported value is day index 0 (`np.argmax` of an all-False row), not the
last day index of the horizon.  Either way it is a total function — never an
error. -/
theorem daysToTarget_first_crossing (target : ℚ) (trial : List ℚ) :
    ((∃ j, j < (cumsum trial).length ∧ target ≤ (cumsum trial).getD j 0) →
      (daysToTargetRow target (cumsum trial) < (cumsum trial).length ∧
       target ≤ (cumsum trial).getD (daysToTargetRow target (cumsum trial)) 0 ∧
       ∀ k, k < daysToTargetRow target (cumsum trial) →
         (cumsum trial).getD k 0 < target)) ∧
    ((∀ j, j < (cumsum trial).length → (cumsum trial).getD j 0 < target) →
      daysToTargetRow target (cumsum trial) = 0) := by
  constructor
  · intro hex
    cases hfx : firstGeIdx target (cumsum trial) with
    | none =>
      exfalso
      obtain ⟨j, hj, hge⟩ := hex
      have hall := (firstGeIdx_none_iff target (cumsum trial)).mp hfx
      have hmem : (cumsum trial).getD j 0 ∈ cumsum trial := by
        rw [List.getD_eq_getElem _ 0 hj]
        exact List.getElem_mem hj
      exact absurd hge (not_le.mpr (hall _ hmem))
    | some i =>
      obtain ⟨hlen, hge, hfirst⟩ := firstGeIdx_some_spec target (cumsum trial) i hfx
      have hval : daysToTargetRow target (cumsum trial) = i := by
        rw [daysToTargetRow, hfx]
        rfl
      rw [hval]
      exact ⟨hlen, hge, hfirst⟩
  · intro hall
    have hfx : firstGeIdx target (cumsum trial) = none := by
      rw [firstGeIdx_none_iff]
      intro x hx
      obtain ⟨j, hj, hxj⟩ := List.mem_iff_getElem.mp hx
      have := hall j hj
      rw [List.getD_eq_getElem _ 0 hj, hxj] at this
      exact this
    rw [daysToTargetRow, hfx]
    rfl

/-- C1 counterexample: with the series `[0, 5]` and target 6 the heuristic
horizon is `int(12/2.5) = 4`; the all-zero draw never reaches the target, and
the reported trial value — hence every percentile — is day index 0, not the
last day index 3 the claim requires. -/
theorem daysToTarget_fallback_counterexample :
    runSimulation 1 [0, 5] none (some 6) (fun _ _ => 0) = Except.ok [0, 0, 0, 0] ∧
    ¬ runSimulation 1 [0, 5] none (some 6) (fun _ _ => 0) =
        Except.ok [3, 3, 3, 3] := by
  have hmean : mean [(0 : ℚ), 5] = 5 / 2 := by
    norm_num [mean]
  have hpy : pyInt (2 * 6 / mean [(0 : ℚ), 5]) = 4 := by
    rw [hmean, pyInt, if_pos (by norm_num)]
    norm_num
  have h := runSimulation_target_eq 1 [0, 5] 6 (fun _ _ => 0)
    (by norm_num) (by simp) (by rw [hmean]; norm_num) (by rw [hpy]; norm_num)
  rw [hpy] at h
  have hrow : sampleRow [(0 : ℚ), 5] (fun _ _ => 0) 0 (Int.toNat 4) = [0, 0, 0, 0] := by
    norm_num [sampleRow, List.range_succ]
    rfl
  have hcum : cumsum [(0 : ℚ), 0, 0, 0] = [0, 0, 0, 0] := by
    norm_num [cumsum, cumsumFrom]
  have hday : daysToTargetRow 6 [(0 : ℚ), 0, 0, 0] = 0 := by
    norm_num [daysToTargetRow, firstGeIdx]
  have hvalue : runSimulation 1 [0, 5] none (some 6) (fun _ _ => 0) =
      Except.ok [0, 0, 0, 0] := by
    rw [h]
    rw [show List.range 1 = [0] from rfl]
    simp only [List.map_cons, List.map_nil]
    rw [hrow, hcum, hday]
    norm_num [quantileLinear, sortQ, sortByKey, insertByKey]
  refine ⟨hvalue, ?_⟩
  rw [hvalue]
  intro hcontra
  norm_num at hcontra

/-- Concrete instance of the corrected C1: for the trial `[1, 2]` and target 2
the reported value is an index where the cumulative sum has reached the
target. -/
theorem daysToTarget_first_crossing_witness :
    (2 : ℚ) ≤ (cumsum [1, 2]).getD (daysToTargetRow 2 (cumsum [1, 2])) 0 ∧
    daysToTargetRow 2 (cumsum [1, 2]) < (cumsum [1, 2]).length := by
  have h := (daysToTarget_first_crossing 2 [1, 2]).1
  have hex : ∃ j, j < (cumsum [(1 : ℚ), 2]).length ∧
      (2 : ℚ) ≤ (cumsum [(1 : ℚ), 2]).getD j 0 := by
    refine ⟨1, ?_, ?_⟩ <;> norm_num [cumsum, cumsumFrom]
  obtain ⟨hlt, hge, _⟩ := h hex
  exact ⟨hge, hlt⟩

/-! ## C2 -/

theorem ceil_le_floor_two_mul (r : ℚ) (h : 1 / 2 ≤ r) : ⌈r⌉ ≤ ⌊2 * r⌋ := by
  by_cases hr : 1 ≤ r
  · refine Int.le_floor.mpr (le_of_lt (lt_of_lt_of_le (Int.ceil_lt_add_one r) ?_))
    linarith
  · push_neg at hr
    have h1 : ⌈r⌉ ≤ 1 := Int.ceil_le.mpr (by push_cast; linarith)
    have h2 : (1 : ℤ) ≤ ⌊2 * r⌋ := Int.le_floor.mpr (by push_cast; linarith)
    omega

theorem getD_map_range (f : Nat → ℚ) (n k : Nat) (hk : k < n) :
    ((List.range n).map f).getD k 0 = f k := by
  rw [List.getD_eq_getElem _ 0 (by simpa using hk), List.getElem_map,
    List.getElem_range]

/-- C2 (corrected): on a constant daily-completion series of value `v > 0`
(with `2*target ≥ v`, so that the heuristic horizon `int(2*target/v)` is at
least one day and long enough), every trial's cumulative sum first reaches
the target at 0-based day index `⌈target/v⌉ - 1`, and every one of the four
reported percentiles equals exactly `⌈target/v⌉ - 1` — one less than the
`⌈target/v⌉` the claim states, because `np.argmax` day indices start at 0. -/
theorem constant_series_days_to_target
    (numSim m : Nat) (v t : ℚ) (sample : Nat → Nat → Nat)
    (hsim : 0 < numSim) (hm : 0 < m) (hv : 0 < v) (ht : 0 < t)
    (hvt : v ≤ 2 * t) :
    runSimulation numSim (List.replicate m v) none (some t) sample =
      Except.ok [((⌈t / v⌉ - 1 : ℤ) : ℚ), ((⌈t / v⌉ - 1 : ℤ) : ℚ),
        ((⌈t / v⌉ - 1 : ℤ) : ℚ), ((⌈t / v⌉ - 1 : ℤ) : ℚ)] := by
  have hs : List.replicate m v ≠ [] := List.length_pos.mp (by simpa using hm)
  have hmean : mean (List.replicate m v) = v := mean_replicate m v hm
  have hm0 : mean (List.replicate m v) ≠ 0 := by rw [hmean]; exact ne_of_gt hv
  have hr : 1 / 2 ≤ t / v := by
    rw [le_div_iff hv]
    linarith
  have hrpos : 0 < t / v := div_pos ht hv
  have hceil1 : 1 ≤ ⌈t / v⌉ := Int.ceil_pos.mpr hrpos
  have h2tv : 2 * t / mean (List.replicate m v) = 2 * (t / v) := by
    rw [hmean]
    ring
  have hfloor1 : 1 ≤ ⌊2 * (t / v)⌋ := le_trans hceil1 (ceil_le_floor_two_mul _ hr)
  have hpy : pyInt (2 * t / mean (List.replicate m v)) = ⌊2 * (t / v)⌋ := by
    rw [h2tv, pyInt, if_pos (by positivity)]
  have hnd : 0 < pyInt (2 * t / mean (List.replicate m v)) := by
    rw [hpy]
    omega
  rw [runSimulation_target_eq numSim _ t sample hsim hs hm0 hnd, hpy]
  set nd : Nat := (⌊2 * (t / v)⌋).toNat with hnddef
  set i : Nat := (⌈t / v⌉ - 1).toNat with hidef
  have hi_lt : i < nd := by
    have := ceil_le_floor_two_mul (t / v) hr
    omega
  have hicast : ((i : ℤ)) = ⌈t / v⌉ - 1 := by
    rw [hidef]
    omega
  have hrow : ∀ j ∈ List.range numSim,
      cumsum (sampleRow (List.replicate m v) sample j nd) =
        (List.range nd).map (fun (j : Nat) => ((j : ℚ) + 1) * v) := by
    intro j _
    rw [sampleRow_replicate m v sample j nd hm, cumsum_replicate]
  have hday : daysToTargetRow t ((List.range nd).map (fun (j : Nat) => ((j : ℚ) + 1) * v)) = i := by
    rw [daysToTargetRow, firstGeIdx_eq_some_intro t _ i (by simpa using hi_lt) ?_ ?_]
    · rfl
    · rw [getD_map_range _ _ _ hi_lt]
      have hle : t / v ≤ ((⌈t / v⌉ : ℤ) : ℚ) := Int.le_ceil _
      have hiq : ((i : ℚ) + 1) = ((⌈t / v⌉ : ℤ) : ℚ) := by
        have : ((i : ℤ) : ℚ) = ((⌈t / v⌉ - 1 : ℤ) : ℚ) := by exact_mod_cast hicast
        push_cast at this ⊢
        linarith
      rw [hiq]
      calc t = t / v * v := by field_simp
      _ ≤ ((⌈t / v⌉ : ℤ) : ℚ) * v := mul_le_mul_of_nonneg_right hle (le_of_lt hv)
    · intro k hk
      rw [getD_map_range _ _ _ (lt_trans hk hi_lt)]
      have hklt : ((k : ℚ) + 1) < t / v := by
        have h1 : (k : ℤ) + 1 ≤ ⌈t / v⌉ - 1 := by omega
        have h2 : ((⌈t / v⌉ : ℤ) : ℚ) - 1 < t / v := by
          have := Int.ceil_lt_add_one (t / v)
          linarith
        have h3 : ((k : ℚ) + 1) ≤ ((⌈t / v⌉ : ℤ) : ℚ) - 1 := by
          exact_mod_cast h1
        linarith
      calc ((k : ℚ) + 1) * v < t / v * v :=
        mul_lt_mul_of_pos_right hklt hv
      _ = t := by field_simp
  have hdays : ((List.range numSim).map
        (fun j => cumsum (sampleRow (List.replicate m v) sample j nd))).map
        (fun row => (daysToTargetRow t row : ℚ)) =
      List.replicate numSim ((i : ℚ)) := by
    rw [List.map_congr_left hrow]
    rw [List.map_map]
    have : ∀ j ∈ List.range numSim,
        ((fun row => (daysToTargetRow t row : ℚ)) ∘
          (fun _ => (List.range nd).map (fun (j : Nat) => ((j : ℚ) + 1) * v))) j
          = (i : ℚ) := by
      intro j _
      simp only [Function.comp_apply]
      rw [hday]
    rw [List.map_congr_left this,
      show (fun (_ : Nat) => ((i : ℚ))) = Function.const Nat ((i : ℚ)) from rfl,
      List.map_const, List.length_range]
  rw [hdays]
  have hq : ∀ q : ℚ, 0 ≤ q → q ≤ 1 →
      quantileLinear q (List.replicate numSim ((i : ℚ))) = (i : ℚ) :=
    fun q h0 h1 => quantileLinear_replicate q numSim _ hsim h0 h1
  simp only [List.map_cons, List.map_nil,
    hq 0.5 (by norm_num) (by norm_num), hq 0.75 (by norm_num) (by norm_num),
    hq 0.85 (by norm_num) (by norm_num), hq 0.95 (by norm_num) (by norm_num)]
  have : ((i : ℚ)) = ((⌈t / v⌉ - 1 : ℤ) : ℚ) := by exact_mod_cast hicast
  rw [this]

/-- C2 counterexample: constant series of value 1, target 2.  The heuristic
horizon is `int(4) = 4`; every trial's cumulative row is `[1, 2, 3, 4]`,
which first reaches 2 at 0-based index 1, so every percentile is 1 — not the
`ceil(2/1) = 2` the claim requires. -/
theorem constant_series_forecast_counterexample :
    runSimulation 2 [1, 1] none (some 2) (fun _ _ => 0) = Except.ok [1, 1, 1, 1] ∧
    ¬ runSimulation 2 [1, 1] none (some 2) (fun _ _ => 0) =
        Except.ok [2, 2, 2, 2] := by
  have hmean : mean [(1 : ℚ), 1] = 1 := by norm_num [mean]
  have hpy : pyInt (2 * 2 / mean [(1 : ℚ), 1]) = 4 := by
    rw [hmean, pyInt, if_pos (by norm_num)]
    norm_num
  have h := runSimulation_target_eq 2 [1, 1] 2 (fun _ _ => 0)
    (by norm_num) (by simp) (by rw [hmean]; norm_num) (by rw [hpy]; norm_num)
  rw [hpy] at h
  have hrow : ∀ j : Nat, sampleRow [(1 : ℚ), 1] (fun _ _ => 0) j (Int.toNat 4) =
      [1, 1, 1, 1] := by
    intro j
    norm_num [sampleRow, List.range_succ]
    rfl
  have hcum : cumsum [(1 : ℚ), 1, 1, 1] = [1, 2, 3, 4] := by
    norm_num [cumsum, cumsumFrom]
  have hday : daysToTargetRow 2 [(1 : ℚ), 2, 3, 4] = 1 := by
    norm_num [daysToTargetRow, firstGeIdx]
  have hvalue : runSimulation 2 [1, 1] none (some 2) (fun _ _ => 0) =
      Except.ok [1, 1, 1, 1] := by
    rw [h]
    rw [show List.range 2 = [0, 1] from rfl]
    simp only [List.map_cons, List.map_nil]
    rw [hrow 0, hrow 1, hcum, hday]
    norm_num [quantileLinear, sortQ, sortByKey, insertByKey]
  refine ⟨hvalue, ?_⟩
  rw [hvalue]
  intro hcontra
  norm_num at hcontra

/-- Concrete instance of the corrected C2: constant series of value 1 and
target 3 give `ceil(3/1) - 1 = 2` for every percentile. -/
theorem constant_series_days_to_target_witness :
    runSimulation 1 [1] none (some 3) (fun _ _ => 0) = Except.ok [2, 2, 2, 2] := by
  have h := constant_series_days_to_target 1 1 1 3 (fun _ _ => 0)
    (by norm_num) (by norm_num) (by norm_num) (by norm_num) (by norm_num)
  rw [show List.replicate 1 (1 : ℚ) = [1] from rfl] at h
  have hc : ⌈(3 : ℚ) / 1⌉ = 3 := by
    rw [div_one, show (3 : ℚ) = ((3 : ℤ) : ℚ) by norm_num, Int.ceil_intCast]
  rw [hc] at h
  rw [h]
  norm_num

/-! ## C4 -/

/-- C4 (corrected): reconstructing the cycle-time map from any permutation of
the event list yields the identical result — `(CycleTimeMap, transition
count)`, literally equal — *provided the event timestamps are pairwise
distinct*.  (With tied timestamps Python's stable sort preserves the input
order of the tied events and the result can differ; see the counterexample.) -/
theorem cycle_times_perm_invariant (events₁ events₂ : List StatusChangeEvent)
    (now : ℤ) (hp : events₁.Perm events₂)
    (hnd : (events₁.map (fun e => e.ts)).Nodup) :
    calculate_cycle_times events₁ now = calculate_cycle_times events₂ now := by
  unfold calculate_cycle_times
  rw [hp.countP_eq, sortByKey_eq_of_perm (fun e => e.ts) events₁ events₂ hp hnd]

/-- C4 counterexample: two events with the same timestamp.  In one input
order the map records `B ↦ 0`, in the other `B ↦ 10`: the two permutations of
the same unordered event list give different CycleTimeMaps. -/
theorem cycle_times_tie_counterexample :
    ([⟨0, "A", "B"⟩, ⟨0, "B", "C"⟩] : List StatusChangeEvent).Perm
        [⟨0, "B", "C"⟩, ⟨0, "A", "B"⟩] ∧
    (calculate_cycle_times [⟨0, "A", "B"⟩, ⟨0, "B", "C"⟩] 10).1.lookup "B"
        = some 0 ∧
    (calculate_cycle_times [⟨0, "B", "C"⟩, ⟨0, "A", "B"⟩] 10).1.lookup "B"
        = some 10 := by
  refine ⟨?_, ?_, ?_⟩ <;> decide

/-- Concrete instance of the corrected C4: distinct timestamps, two input
orders, identical results. -/
theorem cycle_times_perm_invariant_witness :
    calculate_cycle_times [⟨1, "A", "B"⟩, ⟨5, "B", "C"⟩] 10 =
      calculate_cycle_times [⟨5, "B", "C"⟩, ⟨1, "A", "B"⟩] 10 :=
  cycle_times_perm_invariant _ _ 10 (by decide) (by decide)

/-! ## C5 -/

theorem lookup_eq_none_of_not_mem_keys (k : String) :
    ∀ l : List (String × ℤ), k ∉ l.map Prod.fst → l.lookup k = none
  | [], _ => rfl
  | (k₀, v₀) :: rest, h => by
    have hk : k ≠ k₀ := fun he => h (by simp [he])
    have hrest : k ∉ rest.map Prod.fst := fun hm => h (by simp [hm])
    simp only [List.lookup, beq_eq_false_iff_ne.mpr hk]
    exact lookup_eq_none_of_not_mem_keys k rest hrest

theorem sum_ite_key (k : String) (v : ℤ) (g : String → ℤ) (hg : g k = 0) :
    ∀ sel : List String, sel.Nodup →
      (sel.map (fun s => if s = k then v else g s)).sum =
        (if k ∈ sel then v else 0) + (sel.map g).sum
  | [], _ => by simp
  | s :: sel, hsel => by
    rw [List.nodup_cons] at hsel
    rw [List.map_cons, List.map_cons, List.sum_cons, List.sum_cons,
      sum_ite_key k v g hg sel hsel.2]
    by_cases hsk : s = k
    · subst hsk
      rw [if_pos rfl, if_neg hsel.1, if_pos (List.mem_cons_self s sel), hg]
      try ring
    · rw [if_neg hsk]
      by_cases hk : k ∈ sel
      · rw [if_pos hk, if_pos (List.mem_cons_of_mem s hk)]
        ring
      · rw [if_neg hk, if_neg (fun hmem => by
          rcases List.mem_cons.mp hmem with he | hm
          · exact hsk he.symm
          · exact hk hm)]
        ring

theorem combined_eq_filter_sum (sel : List String) (hsel : sel.Nodup) :
    ∀ ct : List (String × ℤ), (ct.map Prod.fst).Nodup →
      calculate_combined_cycle_time ct sel =
        ((ct.filter (fun p => p.1 ∈ sel)).map Prod.snd).sum
  | [], _ => by
    simp [calculate_combined_cycle_time, List.lookup]
  | (k, v) :: rest, hct => by
    rw [List.map_cons, List.nodup_cons] at hct
    have hpt : ∀ s ∈ sel, ((((k, v) :: rest).lookup s).getD 0 : ℤ) =
        if s = k then v else ((rest.lookup s).getD 0 : ℤ) := by
      intro s _
      by_cases hsk : s = k
      · simp [List.lookup, hsk]
      · simp [List.lookup, beq_eq_false_iff_ne.mpr hsk, hsk]
    have hg : ((rest.lookup k).getD 0 : ℤ) = 0 := by
      rw [lookup_eq_none_of_not_mem_keys k rest hct.1]
      rfl
    rw [calculate_combined_cycle_time, List.map_congr_left hpt,
      sum_ite_key k v _ hg sel hsel, List.filter_cons]
    by_cases hk : k ∈ sel
    · rw [if_pos hk]
      have hcond : (decide ((k, v).1 ∈ sel)) = true := by simpa using hk
      rw [hcond, if_pos rfl, List.map_cons, List.sum_cons,
        ← combined_eq_filter_sum sel hsel rest hct.2]
      rfl
    · rw [if_neg hk]
      have hcond : (decide ((k, v).1 ∈ sel)) = false := by simpa using hk
      rw [hcond, if_neg (by simp), ← combined_eq_filter_sum sel hsel rest hct.2,
        zero_add]
      rfl

/-- C5: the combined-status cycle time is the sum of the map's durations over
the statuses present in both the map and the selected set; selected statuses
absent from the map contribute zero (they look up to the default 0), and for
the map `{A: 2h, B: 3h}` with selected set `{A, C}` the result is exactly 2h
(7200 seconds).  (`calculate_combined_cycle_time` is pure, so there are no
side effects by construction.) -/
theorem combined_cycle_time_spec (ct : List (String × ℤ)) (sel : List String)
    (hct : (ct.map Prod.fst).Nodup) (hsel : sel.Nodup) :
    calculate_combined_cycle_time ct sel =
      ((ct.filter (fun p => p.1 ∈ sel)).map Prod.snd).sum ∧
    calculate_combined_cycle_time [("A", 7200), ("B", 10800)] ["A", "C"] = 7200 := by
  refine ⟨combined_eq_filter_sum sel hsel ct hct, by decide⟩

/-- Concrete instance of C5. -/
theorem combined_cycle_time_spec_witness :
    calculate_combined_cycle_time [("A", 7200), ("B", 10800)] ["A", "C"] = 7200 :=
  (combined_cycle_time_spec [("A", 7200), ("B", 10800)] ["A", "C"]
    (by decide) (by decide)).2

/-! ## C7 -/

theorem isOutlier_iff (tickets : List WorkItem) (mult : ℚ) (t : WorkItem) :
    isOutlier mult tickets t = true ↔
      ∃ s d, (s, d) ∈ t.cycle_times ∧ upperBound mult tickets s < (d : ℚ) := by
  rw [isOutlier, List.any_eq_true]
  constructor
  · rintro ⟨p, hp, hpt⟩
    exact ⟨p.1, p.2, hp, of_decide_eq_true hpt⟩
  · rintro ⟨s, d, hmem, hlt⟩
    exact ⟨(s, d), hmem, decide_eq_true hlt⟩

/-- C7: `remove_outliers` excludes a ticket iff at least one of its recorded
status durations strictly exceeds that status's IQR fence
`Q3 + multiplier*(Q3 - Q1)` computed across all tickets; the lower bound never
causes exclusion (the test uses only the upper bound); retained tickets are
exactly those with no such duration; no ticket is in both lists; and the two
returned lists together are a permutation of the input (every item lands in
exactly one side, with multiplicity). -/
theorem remove_outliers_partition (tickets : List WorkItem) (mult : ℚ) :
    (∀ t, t ∈ (remove_outliers tickets mult).2 ↔
      t ∈ tickets ∧ ∃ s d, (s, d) ∈ t.cycle_times ∧
        upperBound mult tickets s < (d : ℚ)) ∧
    (∀ t, t ∈ (remove_outliers tickets mult).1 ↔
      t ∈ tickets ∧ ∀ s d, (s, d) ∈ t.cycle_times →
        (d : ℚ) ≤ upperBound mult tickets s) ∧
    (∀ t, ¬ (t ∈ (remove_outliers tickets mult).1 ∧
      t ∈ (remove_outliers tickets mult).2)) ∧
    tickets.Perm ((remove_outliers tickets mult).1 ++ (remove_outliers tickets mult).2) := by
  refine ⟨?_, ?_, ?_, ?_⟩
  · intro t
    show t ∈ tickets.filter (fun t => isOutlier mult tickets t) ↔ _
    rw [List.mem_filter, isOutlier_iff]
  · intro t
    show t ∈ tickets.filter (fun t => ! isOutlier mult tickets t) ↔ _
    rw [List.mem_filter]
    constructor
    · rintro ⟨htl, hb⟩
      refine ⟨htl, ?_⟩
      intro s d hmem
      by_contra hgt
      have : isOutlier mult tickets t = true :=
        (isOutlier_iff tickets mult t).mpr ⟨s, d, hmem, not_le.mp hgt⟩
      rw [this] at hb
      exact absurd hb (by simp)
    · rintro ⟨htl, hall⟩
      refine ⟨htl, ?_⟩
      have : isOutlier mult tickets t = false := by
        rw [← Bool.not_eq_true, isOutlier_iff]
        rintro ⟨s, d, hmem, hlt⟩
        exact absurd (hall s d hmem) (not_le.mpr hlt)
      rw [this]
      rfl
  · intro t ⟨h1, h2⟩
    have h1b : t ∈ tickets.filter (fun t => ! isOutlier mult tickets t) := h1
    have h2b : t ∈ tickets.filter (fun t => isOutlier mult tickets t) := h2
    rw [List.mem_filter] at h1b h2b
    rw [h2b.2] at h1b
    exact absurd h1b.2 (by simp)
  · show tickets.Perm
      (tickets.filter (fun t => ! isOutlier mult tickets t) ++
        tickets.filter (fun t => isOutlier mult tickets t))
    have h := List.filter_append_perm (fun t => ! isOutlier mult tickets t) tickets
    have heq : (fun t => !! isOutlier mult tickets t) =
        (fun t => isOutlier mult tickets t) := by
      funext t
      exact Bool.not_not _
    rw [heq] at h
    exact h.symm

/-- Concrete instance of C7: among four tickets whose durations in status "S"
are 1, 1, 1 and 100 seconds, the IQR fence is 503/8 = 62.875, so the fourth
ticket is excluded while a 1-second ticket is retained. -/
theorem remove_outliers_partition_witness :
    { baseItem with key := "T4", cycle_times := [("S", 100)] } ∈
      (remove_outliers
        [{ baseItem with key := "T1", cycle_times := [("S", 1)] },
         { baseItem with key := "T2", cycle_times := [("S", 1)] },
         { baseItem with key := "T3", cycle_times := [("S", 1)] },
         { baseItem with key := "T4", cycle_times := [("S", 100)] }] (3/2)).2 ∧
    { baseItem with key := "T1", cycle_times := [("S", 1)] } ∈
      (remove_outliers
        [{ baseItem with key := "T1", cycle_times := [("S", 1)] },
         { baseItem with key := "T2", cycle_times := [("S", 1)] },
         { baseItem with key := "T3", cycle_times := [("S", 1)] },
         { baseItem with key := "T4", cycle_times := [("S", 100)] }] (3/2)).1 := by
  have hub : upperBound (3/2)
      [{ baseItem with key := "T1", cycle_times := [("S", 1)] },
       { baseItem with key := "T2", cycle_times := [("S", 1)] },
       { baseItem with key := "T3", cycle_times := [("S", 1)] },
       { baseItem with key := "T4", cycle_times := [("S", 100)] }] "S" = 503/8 := by
    norm_num [upperBound, statusDurations, baseItem, List.filterMap, List.lookup,
      pyPercentile, quantileLinear, sortQ, sortByKey, insertByKey]
    norm_num [show Int.toNat 2 = 2 from rfl]
  constructor
  · refine ((remove_outliers_partition _ (3/2)).1 _).mpr ⟨by decide, "S", 100, by decide, ?_⟩
    rw [hub]
    norm_num
  · refine ((remove_outliers_partition _ (3/2)).2.1 _).mpr ⟨by decide, ?_⟩
    intro s d hmem
    have hs : s = "S" ∧ d = 1 := by
      have : (s, d) ∈ [(("S" : String), (1 : ℤ))] := hmem
      simpa using this
    rw [hs.1, hs.2, hub]
    norm_num

/-! ## C8 -/

theorem average_points_eq (ts : List WorkItem) :
    (analyze_story_points ts).average_points =
      if originalTickets ts = [] then none
      else some (mean ((originalTickets ts).map (fun t => t.story_points.getD 0))) :=
  rfl

/-- C8: the reported average story points is computed only from tickets whose
points were originally sourced: appending any batch of non-original
(backfilled or unflagged) tickets leaves the average unchanged; on originals
`[3, 5]` plus backfilled `[1, 1, 1]` the average is exactly 4; and with no
original tickets the average is `None` (absent), not zero. -/
theorem analyze_story_points_average :
    (∀ ts us : List WorkItem, (∀ u ∈ us, ¬ u.original_story_points = some true) →
      (analyze_story_points (ts ++ us)).average_points =
        (analyze_story_points ts).average_points) ∧
    (analyze_story_points
      [{ baseItem with story_points := some 3, original_story_points := some true },
       { baseItem with story_points := some 5, original_story_points := some true },
       { baseItem with story_points := some 1, original_story_points := some false },
       { baseItem with story_points := some 1, original_story_points := some false },
       { baseItem with story_points := some 1, original_story_points := some false }]
      ).average_points = some 4 ∧
    (∀ ts : List WorkItem, (∀ t ∈ ts, ¬ t.original_story_points = some true) →
      (analyze_story_points ts).average_points = none) := by
  have hfilter_nil : ∀ us : List WorkItem,
      (∀ u ∈ us, ¬ u.original_story_points = some true) → originalTickets us = [] := by
    intro us h
    rw [originalTickets, List.filter_eq_nil_iff]
    intro u hu
    simpa using h u hu
  refine ⟨?_, ?_, ?_⟩
  · intro ts us h
    have hkey : originalTickets (ts ++ us) = originalTickets ts := by
      rw [originalTickets, originalTickets, List.filter_append,
        show us.filter (fun t => t.original_story_points == some true) = [] from
          hfilter_nil us h, List.append_nil]
    rw [average_points_eq, average_points_eq, hkey]
  · rw [average_points_eq]
    rw [show originalTickets
        [{ baseItem with story_points := some 3, original_story_points := some true },
         { baseItem with story_points := some 5, original_story_points := some true },
         { baseItem with story_points := some 1, original_story_points := some false },
         { baseItem with story_points := some 1, original_story_points := some false },
         { baseItem with story_points := some 1, original_story_points := some false }]
      = [{ baseItem with story_points := some 3, original_story_points := some true },
         { baseItem with story_points := some 5, original_story_points := some true }]
      from by rfl]
    rw [if_neg (by simp)]
    norm_num [mean, baseItem]
  · intro ts h
    rw [average_points_eq, if_pos (hfilter_nil ts h)]

/-- Concrete instance of C8: appending a backfilled ticket does not change
the average, and a collection with no originals has an absent average. -/
theorem analyze_story_points_average_witness :
    (analyze_story_points
        ([{ baseItem with story_points := some 3, original_story_points := some true }] ++
         [{ baseItem with story_points := some 7, original_story_points := some false }])
      ).average_points =
      (analyze_story_points
        [{ baseItem with story_points := some 3, original_story_points := some true }]
      ).average_points ∧
    (analyze_story_points
        [{ baseItem with story_points := some 7, original_story_points := some false }]
      ).average_points = none := by
  constructor
  · refine analyze_story_points_average.1 _ _ ?_
    intro u hu
    rw [List.mem_singleton] at hu
    subst hu
    simp
  · refine analyze_story_points_average.2.2 _ ?_
    intro t ht
    rw [List.mem_singleton] at ht
    subst ht
    simp

/-! ## C10 -/

/-- C10: `backfill_story_points` totalizes the collection and never errors:
every output ticket has a non-null `story_points` and a boolean
`original_story_points` flag that is true iff its points were present in the
input; tickets that already had points keep their exact value; and when no
ticket in the collection has any points, the backfill value is the constant
1 rather than an average. -/
theorem backfill_story_points_spec (ts : List WorkItem) :
    List.Forall₂ (fun t u =>
        u.story_points.isSome = true ∧
        u.original_story_points = some t.story_points.isSome ∧
        ∀ p, t.story_points = some p → u.story_points = some p)
      ts (backfill_story_points ts) ∧
    ((∀ t ∈ ts, t.story_points = none) →
      ∀ u ∈ backfill_story_points ts, u.story_points = some 1) := by
  constructor
  · rw [backfill_story_points]
    rw [List.forall₂_map_right_iff]
    rw [List.forall₂_same]
    intro t _
    cases hsp : t.story_points with
    | none => exact ⟨rfl, rfl, fun p hp => absurd hp (by simp)⟩
    | some p₀ => exact ⟨rfl, rfl, fun p hp => hp⟩
  · intro hall u hu
    have havg : backfillAverage ts = 1 := by
      rw [backfillAverage, if_pos (List.filterMap_eq_nil_iff.mpr hall)]
    rw [backfill_story_points] at hu
    obtain ⟨t, ht, hft⟩ := List.mem_map.mp hu
    rw [← hft]
    cases hsp : t.story_points with
    | some p =>
      rw [hall t ht] at hsp
      exact absurd hsp (by simp)
    | none =>
      show some (backfillAverage ts) = some 1
      rw [havg]

/-- Concrete instance of C10: a single ticket with no points gets the
constant backfill value 1. -/
theorem backfill_story_points_spec_witness :
    ((backfill_story_points [{ baseItem with key := "A" }]).getD 0 baseItem).story_points
      = some 1 := by
  refine (backfill_story_points_spec [{ baseItem with key := "A" }]).2 ?_ _ ?_
  · intro t ht
    rw [List.mem_singleton] at ht
    subst ht
    rfl
  · decide

/-! ## C9 -/

theorem foldl_min_le_init : ∀ (ds : List ℤ) (a : ℤ), ds.foldl min a ≤ a
  | [], a => le_refl a
  | d :: ds, a => by
    rw [List.foldl_cons]
    exact le_trans (foldl_min_le_init ds (min a d)) (min_le_left a d)

theorem foldl_min_le_mem : ∀ (ds : List ℤ) (a x : ℤ), x ∈ ds → ds.foldl min a ≤ x
  | [], _, x, hx => absurd hx (List.not_mem_nil x)
  | d :: ds, a, x, hx => by
    rw [List.foldl_cons]
    rcases List.mem_cons.mp hx with he | hm
    · rw [he]
      exact le_trans (foldl_min_le_init ds (min a d)) (min_le_right a d)
    · exact foldl_min_le_mem ds (min a d) x hm

theorem le_foldl_max_init : ∀ (ds : List ℤ) (a : ℤ), a ≤ ds.foldl max a
  | [], a => le_refl a
  | d :: ds, a => by
    rw [List.foldl_cons]
    exact le_trans (le_max_left a d) (le_foldl_max_init ds (max a d))

theorem le_foldl_max_mem : ∀ (ds : List ℤ) (a x : ℤ), x ∈ ds → x ≤ ds.foldl max a
  | [], _, x, hx => absurd hx (List.not_mem_nil x)
  | d :: ds, a, x, hx => by
    rw [List.foldl_cons]
    rcases List.mem_cons.mp hx with he | hm
    · rw [he]
      exact le_trans (le_max_right a d) (le_foldl_max_init ds (max a d))
    · exact le_foldl_max_mem ds (max a d) x hm

theorem minDate_le (l : List ℤ) (d : ℤ) (hd : d ∈ l) : minDate l ≤ d := by
  cases l with
  | nil => exact absurd hd (List.not_mem_nil d)
  | cons a ds =>
    rcases List.mem_cons.mp hd with he | hm
    · exact he ▸ foldl_min_le_init ds a
    · exact foldl_min_le_mem ds a d hm

theorem le_maxDate (l : List ℤ) (d : ℤ) (hd : d ∈ l) : d ≤ maxDate l := by
  cases l with
  | nil => exact absurd hd (List.not_mem_nil d)
  | cons a ds =>
    rcases List.mem_cons.mp hd with he | hm
    · exact he ▸ le_foldl_max_init ds a
    · exact le_foldl_max_mem ds a d hm

theorem bumpDay_length (e L : ℤ) (acc : List ℚ) (d : ℤ) (v : ℚ) :
    (bumpDay e L acc d v).length = acc.length := by
  unfold bumpDay
  split
  · exact List.length_set acc _ _
  · rfl

theorem bumpDay_getD (e L : ℤ) (acc : List ℚ) (d : ℤ) (v : ℚ) (i : Nat)
    (hi : i < acc.length) (hrange : e ≤ d ∧ d ≤ L)
    (hlen : acc.length = (L - e).toNat + 1) :
    (bumpDay e L acc d v).getD i 0 =
      acc.getD i 0 + (if d = e + (i : ℤ) then v else 0) := by
  rw [bumpDay, if_pos hrange]
  by_cases hde : d = e + (i : ℤ)
  · have hij : (d - e).toNat = i := by omega
    rw [if_pos hde, hij]
    rw [List.getD_eq_getElem _ 0 (by rw [List.length_set]; exact hi)]
    rw [List.getElem_set_self]
  · have hij : (d - e).toNat ≠ i := by omega
    rw [if_neg hde, add_zero]
    rw [List.getD_eq_getElem _ 0 (by rw [List.length_set]; exact hi)]
    rw [List.getElem_set_ne hij]
    rw [List.getD_eq_getElem _ 0 hi]

theorem fold_bump_length (e L : ℤ) (up : Bool) :
    ∀ (ts : List WorkItem) (acc : List ℚ),
      (ts.foldl (fun acc t =>
        match t.completed_date with
        | some cd => bumpDay e L acc cd (if up then t.story_points.getD 0 else 1)
        | none => acc) acc).length = acc.length
  | [], _ => rfl
  | t :: ts, acc => by
    rw [List.foldl_cons, fold_bump_length e L up ts]
    cases hcd : t.completed_date with
    | some cd => exact bumpDay_length e L acc cd _
    | none => rfl

theorem fold_bump_getD (e L : ℤ) (up : Bool) (i : Nat) :
    ∀ (ts : List WorkItem) (acc : List ℚ),
      acc.length = (L - e).toNat + 1 → i < acc.length →
      (∀ t ∈ ts, ∀ cd, t.completed_date = some cd → e ≤ cd ∧ cd ≤ L) →
      (ts.foldl (fun acc t =>
        match t.completed_date with
        | some cd => bumpDay e L acc cd (if up then t.story_points.getD 0 else 1)
        | none => acc) acc).getD i 0 =
        acc.getD i 0 +
          ((ts.filter (fun t => t.completed_date == some (e + (i : ℤ)))).map
            (fun t => if up then t.story_points.getD 0 else 1)).sum
  | [], acc, _, _, _ => by simp
  | t :: ts, acc, hlen, hi, hrange => by
    rw [List.foldl_cons, List.filter_cons]
    cases hcd : t.completed_date with
    | none =>
      dsimp only
      have hbeq : ((none : Option ℤ) == some (e + (i : ℤ))) = false := rfl
      rw [hbeq, if_neg (by simp)]
      exact fold_bump_getD e L up i ts acc hlen hi
        (fun u hu => hrange u (List.mem_cons_of_mem t hu))
    | some cd =>
      dsimp only
      have hcdrange := hrange t (List.mem_cons_self t ts) cd hcd
      have hblen : (bumpDay e L acc cd
          (if up then t.story_points.getD 0 else 1)).length = acc.length :=
        bumpDay_length e L acc cd _
      rw [fold_bump_getD e L up i ts _ (hblen.trans hlen) (hblen ▸ hi)
        (fun u hu => hrange u (List.mem_cons_of_mem t hu))]
      rw [bumpDay_getD e L acc cd _ i hi hcdrange hlen]
      by_cases hcdi : cd = e + (i : ℤ)
      · have hbeq : (some cd == some (e + (i : ℤ))) = true :=
          beq_iff_eq.mpr (by rw [hcdi])
        rw [hbeq, if_pos rfl, if_pos hcdi, List.map_cons, List.sum_cons]
        ring
      · have hbeq : (some cd == some (e + (i : ℤ))) = false := by
          rw [beq_eq_false_iff_ne]
          intro hcon
          exact hcdi (Option.some.inj hcon)
        rw [hbeq, if_neg hcdi, add_zero, if_neg (Bool.false_ne_true)]

/-- C9: for every ticket collection with at least one closed ticket,
`prepare_data` returns a frame whose daily series spans every calendar day
from the earliest to the latest completion date contiguously (the date index
is `earliest, earliest+1, ...` with no gaps), has length
`(latest - earliest) + 1`, holds in each bucket the total contribution of
exactly the closed tickets completed that day (zero for days with no
completions), and carries the cumulative-sum column of the series. -/
theorem prepare_data_series_spec (tickets : List WorkItem) (up : Bool)
    (h : completionDates tickets ≠ []) :
    ∃ fr : ThroughputFrame, prepare_data tickets up = some fr ∧
      fr.completed.length =
        (maxDate (completionDates tickets) -
          minDate (completionDates tickets)).toNat + 1 ∧
      fr.dates = (List.range fr.completed.length).map
        (fun i => minDate (completionDates tickets) + (i : ℤ)) ∧
      (∀ i : Nat, i < fr.completed.length →
        fr.completed.getD i 0 =
          (((closedTickets tickets).filter (fun t =>
              t.completed_date ==
                some (minDate (completionDates tickets) + (i : ℤ)))).map
            (fun t => if up then t.story_points.getD 0 else 1)).sum) ∧
      fr.cumulative = cumsum fr.completed := by
  rw [prepare_data]
  rw [if_neg h]
  set e := minDate (completionDates tickets) with he
  set L := maxDate (completionDates tickets) with hL
  set n := (L - e).toNat + 1 with hn
  have hrange : ∀ t ∈ closedTickets tickets, ∀ cd,
      t.completed_date = some cd → e ≤ cd ∧ cd ≤ L := by
    intro t ht cd hcd
    have hmem : cd ∈ completionDates tickets :=
      List.mem_filterMap.mpr ⟨t, ht, hcd⟩
    exact ⟨minDate_le _ cd hmem, le_maxDate _ cd hmem⟩
  have hbase : (List.replicate n (0 : ℚ)).length = (L - e).toNat + 1 := by
    rw [List.length_replicate]
  have hclen : ((closedTickets tickets).foldl (fun acc t =>
      match t.completed_date with
      | some cd => bumpDay e L acc cd (if up then t.story_points.getD 0 else 1)
      | none => acc) (List.replicate n (0 : ℚ))).length = n :=
    (fold_bump_length e L up (closedTickets tickets) _).trans
      (List.length_replicate n 0)
  refine ⟨_, rfl, ?_, ?_, ?_, rfl⟩
  · exact hclen
  · rw [hclen]
  · intro i hilt
    have hi : i < (List.replicate n (0 : ℚ)).length := by
      rw [List.length_replicate]
      rw [hclen] at hilt
      exact hilt
    rw [fold_bump_getD e L up i (closedTickets tickets) _ hbase hi hrange,
      getD_replicate, if_pos (by simpa using hi), zero_add]

/-- Concrete instance of C9: completions on days 0, 0 and 2 give a 3-day
series whose middle (gap) day is zero-filled. -/
theorem prepare_data_series_spec_witness :
    ((prepare_data
      [{ baseItem with key := "T1", completed_date := some 0 },
       { baseItem with key := "T2", completed_date := some 0 },
       { baseItem with key := "T3", completed_date := some 2 }] false).getD ⟨[], [], []⟩).completed.length = 3 ∧
    ((prepare_data
      [{ baseItem with key := "T1", completed_date := some 0 },
       { baseItem with key := "T2", completed_date := some 0 },
       { baseItem with key := "T3", completed_date := some 2 }] false).getD ⟨[], [], []⟩).completed.getD 1 0 = 0 := by
  obtain ⟨fr, hfr, hlen, hdates, hbuckets, hcum⟩ :=
    prepare_data_series_spec
      [{ baseItem with key := "T1", completed_date := some 0 },
       { baseItem with key := "T2", completed_date := some 0 },
       { baseItem with key := "T3", completed_date := some 2 }] false (by decide)
  rw [hfr]
  constructor
  · show fr.completed.length = 3
    rw [hlen]
    decide
  · show fr.completed.getD 1 0 = 0
    rw [hbuckets 1 (by rw [hlen]; decide)]
    rw [show (closedTickets
        [{ baseItem with key := "T1", completed_date := some 0 },
       { baseItem with key := "T2", completed_date := some 0 },
       { baseItem with key := "T3", completed_date := some 2 }]).filter (fun t =>
          t.completed_date == some (minDate (completionDates
            [{ baseItem with key := "T1", completed_date := some 0 },
       { baseItem with key := "T2", completed_date := some 0 },
       { baseItem with key := "T3", completed_date := some 2 }]) + ((1 : Nat) : ℤ))) = [] from by decide]
    rfl
